import Mathlib

/-
Verification of the incremental like-archiver engine.

This file gives a shallow embedding of the two core programs:
  * the Collector (like_retriever/fetch_likes.py): scroll loop, batch
    extraction, overlap-based termination, and the final merge-and-save of
    the identifier ledger;
  * the Processor (archive_all_likes.py): checkpoint file handling, pending
    computation, and the fail-stop archival loop; together with the
    archival action adapter (tweet_archiver/archive_tweet.py).

Files are modelled as lists of lines (strings).  Python `str.strip()` is
modelled by `pyStrip` below.  A Python `set` of strings has an iteration
order that is unspecified (string hashing is salted per process), so code
that iterates such a set is parameterised by an enumeration `setEnum` of
the set's elements; the predicate `isSetEnum` says that a list is a valid
enumeration (no duplicates, same members).
-/

namespace TLA

/-- Remove leading and trailing whitespace characters from a character list,
modelling Python `str.strip()` (and Lean-side trimming) at the character
level. -/
def stripChars (cs : List Char) : List Char :=
  (((cs.dropWhile Char.isWhitespace).reverse.dropWhile Char.isWhitespace)).reverse

/-- Python `line.strip()` on a string, via its character list. -/
def pyStrip (s : String) : String :=
  ⟨stripChars s.data⟩

/-- The cleaned contents of a line file:
`[line.strip() for line in f if line.strip()]`. -/
def cleanLines (lines : List String) : List String :=
  (lines.map pyStrip).filter (fun l => l ≠ "")

/-- Python `list.index` returning the first index of `c`, or `none`
(`ValueError`) when absent. -/
def pyIndex (c : String) : List String → Option Nat
  | [] => none
  | x :: rest => if x = c then some 0 else (pyIndex c rest).map (fun n => n + 1)

/-! ## Collector (TwitterScraper, like_retriever/fetch_likes.py) -/

/-- `TwitterScraper.extract_tweet_ids`: fold one visible batch of tweet ids
(in DOM encounter order) into the run accumulator `tweet_ids_this_run`.
An id is appended only if it is neither already in the accumulator nor in
`already_saved_tweet_ids` (`known`). -/
def extract_tweet_ids (known acc batch : List String) : List String :=
  batch.foldl (fun a id => if id ∈ a ∨ id ∈ known then a else a ++ [id]) acc

/-- One external event seen by the scroll loop of
`TwitterScraper.scroll_and_extract`: a freshly visible batch of ids, an
exception raised inside the loop body, or a user interrupt
(KeyboardInterrupt). -/
inductive ScrollEvent where
  | batch (ids : List String)
  | err (msg : String)
  | interrupt
deriving DecidableEq

/-- How the scroll loop of `TwitterScraper.scroll_and_extract` exited:
`overlap` is the `break` on seeing an already-saved id, `errorExit` the
`except Exception` path, `interrupted` a KeyboardInterrupt, and
`scriptEnd` means the supplied event script ran out while the
`while True` loop was still running (the loop itself had not stopped). -/
inductive ScrollExit where
  | overlap
  | errorExit (msg : String)
  | interrupted
  | scriptEnd
deriving DecidableEq

/-- The `while True` scroll loop of `TwitterScraper.scroll_and_extract`.
State: the run accumulator `acc` (`tweet_ids_this_run`) and the
`no_new_tweets_count` counter `stall` (which the source initialises to 0
and never touches again).  Each batch is first folded into the
accumulator (`extract_tweet_ids`), then the overlap check
`any(tweet_id in self.already_saved_tweet_ids for tweet_id in new_ids)`
breaks the loop. -/
def scrollLoop (known : List String) :
    List ScrollEvent → List String → Nat → List String × ScrollExit × Nat
  | [], acc, stall => (acc, ScrollExit.scriptEnd, stall)
  | ScrollEvent.batch b :: rest, acc, stall =>
      let acc' := extract_tweet_ids known acc b
      if b.any (fun id => known.contains id) then (acc', ScrollExit.overlap, stall)
      else scrollLoop known rest acc' stall
  | ScrollEvent.err m :: _, acc, stall => (acc, ScrollExit.errorExit m, stall)
  | ScrollEvent.interrupt :: _, acc, stall => (acc, ScrollExit.interrupted, stall)

/-- `TwitterScraper.save_tweet_ids`: if the run accumulator is empty the
file is left untouched; otherwise the new ids (in discovery order) are
written first, followed by every member of the set
`{line.strip() for line in f if line.strip()}` that is not in the
accumulator.  Iterating that Python set yields its elements in an
unspecified order, modelled by the parameter `setEnum`. -/
def save_tweet_ids (thisRun fileLines setEnum : List String) : List String :=
  if thisRun = [] then fileLines
  else thisRun ++ setEnum.filter (fun tid => ¬ thisRun.contains tid)

/-- `setEnum` is a valid iteration order of the Python set of cleaned lines
of `fileLines`: duplicate-free and with exactly the same members. -/
def isSetEnum (fileLines setEnum : List String) : Prop :=
  setEnum.Nodup ∧ (∀ x ∈ setEnum, x ∈ cleanLines fileLines) ∧
    (∀ x ∈ cleanLines fileLines, x ∈ setEnum)

/-- `TwitterScraper.scroll_and_extract` end to end: the initial extraction
(before the loop, with no overlap check), the scroll loop, and — in the
`finally` block, hence on every exit path — `save_tweet_ids`.  Returns the
final accumulator, the exit kind, the final stall counter and the new
ledger file contents. -/
def scroll_and_extract (known initialView : List String) (events : List ScrollEvent)
    (fileLines setEnum : List String) : List String × ScrollExit × Nat × List String :=
  let acc0 := extract_tweet_ids known [] initialView
  let r := scrollLoop known events acc0 0
  (r.1, r.2.1, r.2.2, save_tweet_ids r.1 fileLines setEnum)

/-- The sequence of observable file states during one execution of the
write phase of `save_tweet_ids`: the prior contents, then the state right
after `open(filename, 'w')` truncates the file, then the state after each
of the line writes.  Interruption can observe any of these states. -/
def persist_states (oldFile ids : List String) : List (List String) :=
  oldFile :: (List.range (ids.length + 1)).map (fun k => ids.take k)

/-! ## Processor (archive_all_likes.py) -/

/-- `get_last_archived_id`: read the checkpoint file and strip it;
`none` models `FileNotFoundError` (missing file). -/
def get_last_archived_id (stateFile : Option String) : Option String :=
  stateFile.map pyStrip

/-- `get_all_tweets_to_archive`: clean the ledger lines, reverse to
oldest-first, and slice away everything up to and including the
checkpoint.  A falsy checkpoint (missing file or empty content) yields
the whole list; a checkpoint not found in the list (`ValueError` from
`list.index`) also yields the whole list, with a warning. -/
def get_all_tweets_to_archive (stateFile : Option String) (lines : List String) :
    List String :=
  let last_archived_id := get_last_archived_id stateFile
  let tweet_ids := (cleanLines lines).reverse
  if tweet_ids = [] then []
  else
    match last_archived_id with
    | none => tweet_ids
    | some c =>
        if c = "" then tweet_ids
        else
          match pyIndex c tweet_ids with
          | some i => tweet_ids.drop (i + 1)
          | none => tweet_ids

/-- True exactly when `get_all_tweets_to_archive` takes the `ValueError`
fallback branch and prints the "Warning: Last archived tweet ID ... not
found" message. -/
def dangling_warning (stateFile : Option String) (lines : List String) : Bool :=
  match get_last_archived_id stateFile with
  | none => false
  | some c =>
      let tweet_ids := (cleanLines lines).reverse
      if tweet_ids = [] then false
      else if c = "" then false
      else (pyIndex c tweet_ids).isNone

/-- The `for` loop of `main` in archive_all_likes.py: walk the pending
list; on success (`archive_tweet` returns truth) persist the item as the
new checkpoint (`save_last_archived_id`) before moving on; on failure
`break` at once.  Returns the final checkpoint-file content, the count of
newly archived items (`new_archives`) and the failing identifier, if any. -/
def runLoop (f : String → Bool) : List String → Option String →
    Option String × Nat × Option String
  | [], st => (st, 0, none)
  | id :: rest, st =>
      if f id then
        let r := runLoop f rest (some id)
        (r.1, r.2.1 + 1, r.2.2)
      else (st, 0, some id)

/-- `main` of archive_all_likes.py: compute the pending list and run the
archival loop over it, starting from the current checkpoint-file state. -/
def processorMain (stateFile : Option String) (lines : List String)
    (f : String → Bool) : Option String × Nat × Option String :=
  runLoop f (get_all_tweets_to_archive stateFile lines) stateFile

/-- The checkpoint value after a run whose successful prefix was `S`:
unchanged if `S` is empty, otherwise the last success. -/
def lastOr (st : Option String) (S : List String) : Option String :=
  match S.getLast? with
  | none => st
  | some y => some y

/-! ## Archival action (tweet_archiver/archive_tweet.py) -/

/-- Outcome of calling a Python sub-step that may either return a boolean
or raise an exception. -/
inductive StepResult where
  | ok (b : Bool)
  | raises (msg : String)
deriving DecidableEq

/-- The screenshot step of `archive_tweet`, whose call is wrapped in its
own `try/except`: an exception is printed and counted as
`screenshot_success = False`. -/
def take_screenshot_guarded (shot : StepResult) : Bool :=
  match shot with
  | StepResult.ok b => b
  | StepResult.raises _ => false

/-- `download_tweet_media` (tweet_archiver/download_tweet_media.py):
success iff gallery-dl returned exit code 0; any exception is caught
internally (`none`) and reported as `False`.  The function itself never
raises. -/
def download_tweet_media (ret : Option Nat) : Bool :=
  match ret with
  | some code => code == 0
  | none => false

/-- `archive_tweet` (tweet_archiver/archive_tweet.py): `pre` models an
exception raised before the sub-steps (e.g. `os.makedirs`), caught by the
outer `except Exception` and converted to a failure outcome.  Otherwise
the screenshot step (guarded by its own try/except) and the media
download run, and the result is a success iff at least one produced a
message. -/
def archive_tweet (pre : Option String) (shot : StepResult) (mediaRet : Option Nat) :
    Bool × String :=
  match pre with
  | some e => (false, "Error archiving tweet: " ++ e)
  | none =>
      let screenshot_success := take_screenshot_guarded shot
      let media_success := download_tweet_media mediaRet
      let messages :=
        (if screenshot_success then ["Screenshot completed successfully"] else []) ++
          (if media_success then ["Media download completed successfully"] else [])
      if messages = [] then
        (false, "Failed to archive tweet (screenshot and media download failed)")
      else (true, String.intercalate (", ") messages)

/-! ## Helper lemmas -/

theorem head?_dropWhile {α : Type} (p : α → Bool) :
    ∀ (l : List α) (c : α), (l.dropWhile p).head? = some c → p c = false := by
  intro l
  induction l with
  | nil => intro c h; simp [List.dropWhile] at h
  | cons a l ih =>
      intro c h
      by_cases hp : p a
      · rw [List.dropWhile_cons, if_pos hp] at h
        exact ih c h
      · rw [List.dropWhile_cons, if_neg hp] at h
        simp at h
        subst h
        simpa using hp

theorem dropWhile_eq_self_of_head {α : Type} (p : α → Bool) (l : List α)
    (h : ∀ c, l.head? = some c → p c = false) : l.dropWhile p = l := by
  cases l with
  | nil => rfl
  | cons a l =>
      have ha : p a = false := h a rfl
      simp [List.dropWhile_cons, ha]

theorem dropWhile_idem {α : Type} (p : α → Bool) (l : List α) :
    (l.dropWhile p).dropWhile p = l.dropWhile p :=
  dropWhile_eq_self_of_head p _ (head?_dropWhile p l)

theorem exists_append_dropWhile {α : Type} (p : α → Bool) :
    ∀ l : List α, ∃ u, l = u ++ l.dropWhile p := by
  intro l
  induction l with
  | nil => exact ⟨[], rfl⟩
  | cons a l ih =>
      by_cases hp : p a
      · obtain ⟨u, hu⟩ := ih
        refine ⟨a :: u, ?_⟩
        rw [List.dropWhile_cons, if_pos hp, List.cons_append, ← hu]
      · exact ⟨[], by rw [List.dropWhile_cons, if_neg hp]; rfl⟩

theorem stripChars_idem (cs : List Char) : stripChars (stripChars cs) = stripChars cs := by
  unfold stripChars
  set w := Char.isWhitespace with hw
  set A := cs.dropWhile w with hA
  set D := A.reverse.dropWhile w with hD
  have hDrev : D.reverse.dropWhile w = D.reverse := by
    apply dropWhile_eq_self_of_head
    intro c hc
    obtain ⟨u, hu⟩ := exists_append_dropWhile w A.reverse
    have hArev : A = D.reverse ++ u.reverse := by
      have := congrArg List.reverse hu
      simpa [hD] using this
    cases hDr : D.reverse with
    | nil => rw [hDr] at hc; simp at hc
    | cons b t =>
        rw [hDr] at hc
        simp at hc
        have hheadA : A.head? = some b := by
          rw [hArev, hDr]; rfl
        rw [← hc]
        exact head?_dropWhile w cs b (by rw [← hA]; exact hheadA)
  rw [hDrev]
  rw [List.reverse_reverse]
  rw [dropWhile_idem]

theorem pyStrip_idem (s : String) : pyStrip (pyStrip s) = pyStrip s := by
  unfold pyStrip
  exact congrArg String.mk (stripChars_idem s.data)

theorem cleanLines_mem_ne {y : String} {lines : List String}
    (h : y ∈ cleanLines lines) : y ≠ "" := by
  unfold cleanLines at h
  rw [List.mem_filter] at h
  exact of_decide_eq_true h.2

theorem cleanLines_mem_strip {y : String} {lines : List String}
    (h : y ∈ cleanLines lines) : pyStrip y = y := by
  unfold cleanLines at h
  rw [List.mem_filter] at h
  obtain ⟨l, _, hl⟩ := List.mem_map.mp h.1
  rw [← hl]
  exact pyStrip_idem l

theorem pyIndex_append (c : String) :
    ∀ (X Y : List String), c ∉ X → pyIndex c (X ++ c :: Y) = some X.length := by
  intro X
  induction X with
  | nil => intro Y _; simp [pyIndex]
  | cons a X' ih =>
      intro Y h
      have ha : ¬ a = c := by
        intro hac
        exact h (by simp [hac])
      have h' : c ∉ X' := fun hc => h (by simp [hc])
      simp [pyIndex, ha, ih Y h']

theorem drop_append_cons :
    ∀ (X : List String) (c : String) (Y : List String),
      (X ++ c :: Y).drop (X.length + 1) = Y := by
  intro X
  induction X with
  | nil => intro c Y; rfl
  | cons a X' ih =>
      intro c Y
      simp only [List.length_cons, List.cons_append, List.drop_succ_cons]
      exact ih c Y

theorem pyIndex_eq_none {c : String} : ∀ {l : List String}, c ∉ l → pyIndex c l = none := by
  intro l
  induction l with
  | nil => intro _; rfl
  | cons a l ih =>
      intro h
      have ha : ¬ a = c := by
        intro hac
        exact h (by simp [hac])
      have h' : c ∉ l := fun hc => h (by simp [hc])
      simp [pyIndex, ha, ih h']

theorem get_all_decomp {lines X Y : List String} {c : String}
    (hR : (cleanLines lines).reverse = X ++ c :: Y) (hcX : c ∉ X)
    (hstrip : pyStrip c = c) (hne : c ≠ "") :
    get_all_tweets_to_archive (some c) lines = Y := by
  unfold get_all_tweets_to_archive get_last_archived_id
  rw [hR]
  have hnil : ¬ (X ++ c :: Y = []) := by simp
  rw [if_neg hnil]
  simp only [Option.map_some']
  rw [hstrip]
  rw [if_neg hne]
  rw [pyIndex_append c X Y hcX]
  exact drop_append_cons X c Y

theorem get_all_suffix (st : Option String) (lines : List String) :
    ∃ P, (cleanLines lines).reverse = P ++ get_all_tweets_to_archive st lines := by
  unfold get_all_tweets_to_archive
  by_cases h0 : (cleanLines lines).reverse = []
  · rw [if_pos h0]
    exact ⟨[], by simpa using h0⟩
  · rw [if_neg h0]
    cases hst : get_last_archived_id st with
    | none => exact ⟨[], rfl⟩
    | some c =>
        dsimp only
        by_cases hc : c = ""
        · rw [if_pos hc]; exact ⟨[], rfl⟩
        · rw [if_neg hc]
          cases hidx : pyIndex c (cleanLines lines).reverse with
          | none => exact ⟨[], rfl⟩
          | some i =>
              exact ⟨(cleanLines lines).reverse.take (i + 1),
                (List.take_append_drop (i + 1) (cleanLines lines).reverse).symm⟩

theorem lastOr_cons (st : Option String) (s : String) (S : List String) :
    lastOr st (s :: S) = lastOr (some s) S := by
  cases S with
  | nil => simp [lastOr]
  | cons a l =>
      unfold lastOr
      rw [List.getLast?_cons_cons]
      cases h : (a :: l).getLast? with
      | none =>
          exfalso
          have : (a :: l).getLast?.isSome := List.getLast?_isSome.mpr (by simp)
          rw [h] at this
          simp at this
      | some y => rfl

theorem runLoop_split (f : String → Bool) :
    ∀ (S : List String) (x : String) (T : List String) (st : Option String),
      (∀ y ∈ S, f y = true) → f x = false →
      runLoop f (S ++ x :: T) st = (lastOr st S, S.length, some x) := by
  intro S
  induction S with
  | nil =>
      intro x T st _ hx
      simp [runLoop, hx, lastOr]
  | cons s S' ih =>
      intro x T st hS hx
      have hs : f s = true := hS s (by simp)
      have hS' : ∀ y ∈ S', f y = true := fun y hy => hS y (by simp [hy])
      have hmain := ih x T (some s) hS' hx
      have hstep : ∀ (L : List String) (st' : Option String),
          runLoop f (s :: L) st' =
            ((runLoop f L (some s)).1, (runLoop f L (some s)).2.1 + 1,
              (runLoop f L (some s)).2.2) := by
        intro L st'
        simp [runLoop, hs]
      rw [List.cons_append, hstep, hmain, lastOr_cons]
      rfl

theorem runLoop_state (f : String → Bool) :
    ∀ (P : List String) (st : Option String),
      (runLoop f P st).1 = st ∨
        ∃ y, y ∈ P ∧ f y = true ∧ (runLoop f P st).1 = some y := by
  intro P
  induction P with
  | nil => intro st; left; rfl
  | cons a P' ih =>
      intro st
      by_cases ha : f a = true
      · right
        rcases ih (some a) with h | ⟨y, hy, hfy, h⟩
        · exact ⟨a, by simp, ha, by simp [runLoop, ha, h]⟩
        · exact ⟨y, by simp [hy], hfy, by simp [runLoop, ha, h]⟩
      · left
        simp [runLoop, ha]

/-- An event that the scroll loop passes through without stopping: a batch
none of whose ids overlaps the already-saved set. -/
def isQuietBatch (known : List String) : ScrollEvent → Bool
  | ScrollEvent.batch b => !(b.any (fun id => known.contains id))
  | _ => false

theorem get_all_entire (st : Option String) (lines : List String)
    (h : get_last_archived_id st = none ∨ get_last_archived_id st = some ("")) :
    get_all_tweets_to_archive st lines = (cleanLines lines).reverse := by
  unfold get_all_tweets_to_archive
  by_cases h0 : (cleanLines lines).reverse = []
  · rw [if_pos h0]; exact h0.symm
  · rw [if_neg h0]
    rcases h with h | h
    · rw [h]
    · rw [h]; dsimp only; rw [if_pos rfl]

/-! ## Claim theorems -/

/-- Claim C1 (code_bug evaluation): with known ids `{"5","4","3"}` (loaded
from a ledger file whose lines are `["5","4","3"]`), an initial view
`{"7","6"}` and one scrolled batch `{"6","5"}`, the collector does stop at
that second batch by the overlap rule with accumulator `["7","6"]`; but the
persisted ledger is `["7","6"]` followed by the members of the Python set
of existing lines in set-iteration order.  `["3","5","4"]` is a valid
iteration order of that set, and under it the file becomes
`["7","6","3","5","4"]`, not the `["7","6","5","4","3"]` the claim
requires: the prior ledger order is lost because `save_tweet_ids` reads
the existing file into an unordered set. -/
theorem C1_overlap_scenario_eval :
    scroll_and_extract ["5","4","3"] ["7","6"] [ScrollEvent.batch ["6","5"]]
        ["5","4","3"] ["3","5","4"]
      = (["7","6"], ScrollExit.overlap, 0, ["7","6","3","5","4"])
    ∧ isSetEnum ["5","4","3"] ["3","5","4"]
    ∧ (["7","6","3","5","4"] : List String) ≠ ["7","6","5","4","3"] := by
  refine ⟨by decide, ?_, by decide⟩
  refine ⟨by decide, ?_, ?_⟩ <;> decide

/-- Claim C2 (code_bug evaluation): merging fresh ids `["7","6"]` into the
existing ledger file `["5","4","3"]` does prepend the fresh ids in
discovery order, but the previously-recorded ids are written back in the
iteration order of the Python set they were read into.  With the valid
set order `["3","5","4"]` the result is `["7","6","3","5","4"]`: the
relative order of the previously-recorded identifiers is not preserved,
contradicting the claim (which requires `["7","6","5","4","3"]`). -/
theorem C2_merge_order_eval :
    save_tweet_ids ["7","6"] ["5","4","3"] ["3","5","4"] = ["7","6","3","5","4"]
    ∧ isSetEnum ["5","4","3"] ["3","5","4"]
    ∧ (["7","6","3","5","4"] : List String) ≠ ["7","6","5","4","3"] := by
  refine ⟨by decide, ?_, by decide⟩
  refine ⟨by decide, ?_, ?_⟩ <;> decide

set_option maxRecDepth 4000 in
/-- Claim C5 counterexample: running the scroll loop with no known ids on
fifty consecutive batches that add zero new identifiers (and likewise five
hundred), the loop neither escalates nor stops: the stall counter is still
0 (it is initialised and never touched) and the run ends only because the
supplied event script ran out (`scriptEnd`), never by any stall rule.
This refutes the claim that N zero-addition batches trigger an escalation
and that a recurring stall stops the loop. -/
theorem C5_stall_counterexample :
    scrollLoop [] (List.replicate 50 (ScrollEvent.batch [])) [] 0
        = ([], ScrollExit.scriptEnd, 0)
    ∧ scrollLoop [] (List.replicate 200 (ScrollEvent.batch [])) [] 0
        = ([], ScrollExit.scriptEnd, 0) := by
  constructor <;> decide

/-- Claim C5 (amended): the scroll loop of `scroll_and_extract` contains no
stall-based termination at all.  The `no_new_tweets_count` counter is
initialised to zero and never incremented, read or reset; no escalation
action exists; any script of batches that never overlaps the known set —
in particular any run of batches adding zero new identifiers — is consumed
to its end with the loop still running (`scriptEnd`) and the stall counter
unchanged.  The loop stops only on overlap, an internal error, or a user
interrupt. -/
theorem C5_no_stall_rule (known : List String) (events : List ScrollEvent)
    (acc : List String) (stall : Nat)
    (h : ∀ e ∈ events, isQuietBatch known e = true) :
    (scrollLoop known events acc stall).2.1 = ScrollExit.scriptEnd
    ∧ (scrollLoop known events acc stall).2.2 = stall := by
  induction events generalizing acc with
  | nil => exact ⟨rfl, rfl⟩
  | cons e rest ih =>
      have he := h e (by simp)
      cases e with
      | err m => simp [isQuietBatch] at he
      | interrupt => simp [isQuietBatch] at he
      | batch b =>
          have hb : b.any (fun id => known.contains id) = false := by
            simpa [isQuietBatch] using he
          have hrest : ∀ e ∈ rest, isQuietBatch known e = true :=
            fun x hx => h x (by simp [hx])
          have hcond : ¬ ((b.any fun id => known.contains id) = true) := by
            rw [hb]; exact Bool.false_ne_true
          have hstep : scrollLoop known (ScrollEvent.batch b :: rest) acc stall
              = scrollLoop known rest (extract_tweet_ids known acc b) stall := by
            simp only [scrollLoop]
            rw [if_neg hcond]
          rw [hstep]
          exact ih (extract_tweet_ids known acc b) hrest

/-- Claim C5 amended-theorem witness at a concrete input: a two-batch
quiet script with a known set. -/
theorem C5_no_stall_rule_witness :
    (scrollLoop ["5"] [ScrollEvent.batch ["7"], ScrollEvent.batch []] [] 0).2.1
        = ScrollExit.scriptEnd
    ∧ (scrollLoop ["5"] [ScrollEvent.batch ["7"], ScrollEvent.batch []] [] 0).2.2 = 0 :=
  C5_no_stall_rule ["5"] [ScrollEvent.batch ["7"], ScrollEvent.batch []] [] 0 (by decide)

/-- Claim C6: on every exit path of the scroll loop — overlap stop, internal
error, user interrupt, or the script simply running out — the `finally`
block persists the merge of the prior ledger with this run's accumulator,
so every identifier in the accumulator at exit is present in the written
file.  The theorem quantifies over every event script (hence every exit
kind), every prior file and every set-iteration order. -/
theorem C6_final_persist_no_loss (known initialView : List String)
    (events : List ScrollEvent) (fileLines setEnum : List String) :
    ∀ id ∈ (scroll_and_extract known initialView events fileLines setEnum).1,
      id ∈ (scroll_and_extract known initialView events fileLines setEnum).2.2.2 := by
  intro id hid
  unfold scroll_and_extract at hid ⊢
  dsimp only at hid ⊢
  unfold save_tweet_ids
  by_cases h : (scrollLoop known events (extract_tweet_ids known [] initialView) 0).1 = []
  · rw [h] at hid
    simp at hid
  · rw [if_neg h]
    exact List.mem_append_left _ hid

/-- Claim C6 witness: a concrete interrupted run whose accumulated id
`"7"` survives into the persisted file. -/
theorem C6_final_persist_no_loss_witness :
    ("7" : String) ∈ (scroll_and_extract [] ["7"] [ScrollEvent.interrupt] [] []).2.2.2 :=
  C6_final_persist_no_loss [] ["7"] [ScrollEvent.interrupt] [] [] ("7") (by decide)

/-- Claim C8 counterexample: persisting the merged ids `["7","6"]` over a
prior ledger `["9"]` passes through the intermediate file state `["7"]`,
which is neither the old contents nor the new contents — an interruption
there leaves a truncated ledger, refuting atomicity.  (The state `[]`
right after `open(filename, 'w')` truncates is equally a witness.) -/
theorem C8_not_atomic_counterexample :
    (["7"] : List String) ∈ persist_states ["9"] ["7","6"]
    ∧ (["7"] : List String) ≠ ["9"]
    ∧ (["7"] : List String) ≠ ["7","6"] := by
  refine ⟨?_, by decide, by decide⟩
  decide

/-- Claim C8 (amended): every persist writes the full merged sequence, one
identifier per line, newest-first, overwriting the prior state — the final
write state is exactly the full sequence — but the write is NOT atomic:
the target is opened directly in write mode (truncating it) and written
line by line, so a process interruption can observe the old contents or
any prefix (truncation) of the new contents. -/
theorem C8_persist_overwrite_not_atomic (oldFile ids : List String) :
    (∀ s ∈ persist_states oldFile ids, s = oldFile ∨ ∃ k, s = ids.take k)
    ∧ ids ∈ persist_states oldFile ids := by
  constructor
  · intro s hs
    unfold persist_states at hs
    rcases List.mem_cons.mp hs with h | h
    · exact Or.inl h
    · obtain ⟨k, _, hk⟩ := List.mem_map.mp h
      exact Or.inr ⟨k, hk.symm⟩
  · unfold persist_states
    refine List.mem_cons.mpr (Or.inr ?_)
    exact List.mem_map.mpr ⟨ids.length, List.mem_range.mpr (Nat.lt_succ_self _),
      by rw [List.take_length]⟩

/-- Claim C8 amended-theorem witness: the full new contents are indeed
among the write states of a concrete persist. -/
theorem C8_persist_witness :
    (["7","6"] : List String) ∈ persist_states ["9"] ["7","6"] :=
  (C8_persist_overwrite_not_atomic ["9"] ["7","6"]).2

/-- Claim C3: pending computation of the Processor.  (i) A missing
checkpoint file and (ii) an empty checkpoint file both make the pending
list the entire ledger (cleaned, reversed to oldest-first, i.e. processed
oldest-of-the-pending-first).  (iii) When the checkpoint `c` occurs in the
ledger — writing the oldest-first list as `X ++ c :: Y` with the first
occurrence of `c` shown — pending is exactly `Y`, the entries strictly
newer than `c`, still oldest-first.  (iv) Concretely: ledger
`["30","20","10"]` with checkpoint `"20"` has pending `["30"]`; a
successful run moves the checkpoint to `"30"`; an immediately following
run has empty pending and archives zero items. -/
theorem C3_pending_computation :
    (∀ lines : List String,
        get_all_tweets_to_archive none lines = (cleanLines lines).reverse)
    ∧ (∀ lines : List String,
        get_all_tweets_to_archive (some ("")) lines = (cleanLines lines).reverse)
    ∧ (∀ (lines X Y : List String) (c : String),
        (cleanLines lines).reverse = X ++ c :: Y → c ∉ X →
        get_all_tweets_to_archive (some c) lines = Y)
    ∧ (get_all_tweets_to_archive (some ("20")) ["30","20","10"] = ["30"]
        ∧ processorMain (some ("20")) ["30","20","10"] (fun _ => true)
            = (some ("30"), 1, none)
        ∧ get_all_tweets_to_archive (some ("30")) ["30","20","10"] = []
        ∧ processorMain (some ("30")) ["30","20","10"] (fun _ => true)
            = (some ("30"), 0, none)) := by
  refine ⟨?_, ?_, ?_, by decide⟩
  · intro lines
    exact get_all_entire none lines (Or.inl rfl)
  · intro lines
    exact get_all_entire (some ("")) lines (Or.inr (by decide))
  · intro lines X Y c hR hcX
    have hmem : c ∈ cleanLines lines := by
      rw [← List.mem_reverse, hR]
      simp
    exact get_all_decomp hR hcX (cleanLines_mem_strip hmem) (cleanLines_mem_ne hmem)

/-- Claim C3 witness: the decomposition clause evaluated on the concrete
scenario ledger. -/
theorem C3_pending_computation_witness :
    get_all_tweets_to_archive (some ("20")) ["30","20","10"] = ["30"] :=
  C3_pending_computation.2.2.1 ["30","20","10"] ["10"] ["30"] ("20")
    (by decide) (by decide)

/-- Claim C4: fail-stop containment.  If the pending list splits as
`S ++ x :: T` where every item of `S` succeeds and `x` fails, the run
returns with the checkpoint file holding exactly its value immediately
before `x` was attempted (`lastOr st S`: the last success, or the initial
state when `S` is empty, each success having been persisted before the
next item was attempted), with `S.length` items archived and `x` reported
as the failing identifier; and a re-run computes pending `x :: T`, so it
attempts `x` first.  The ledger is assumed duplicate-free (its stated
invariant). -/
theorem C4_fail_stop (lines S T : List String) (x : String) (st : Option String)
    (f : String → Bool)
    (hnd : ((cleanLines lines).reverse).Nodup)
    (hp : get_all_tweets_to_archive st lines = S ++ x :: T)
    (hS : ∀ y ∈ S, f y = true) (hx : f x = false) :
    processorMain st lines f = (lastOr st S, S.length, some x)
    ∧ get_all_tweets_to_archive (lastOr st S) lines = x :: T := by
  constructor
  · unfold processorMain
    rw [hp]
    exact runLoop_split f S x T st hS hx
  · rcases List.eq_nil_or_concat S with rfl | ⟨S', y, rfl⟩
    · simpa [lastOr] using hp
    · rw [List.concat_eq_append] at hp ⊢
      have hlast : lastOr st (S' ++ [y]) = some y := by
        unfold lastOr
        rw [List.getLast?_concat]
      rw [hlast]
      obtain ⟨P, hPre⟩ := get_all_suffix st lines
      rw [hp] at hPre
      have hR : (cleanLines lines).reverse = (P ++ S') ++ y :: (x :: T) := by
        rw [hPre]
        simp
      have hy_mem : y ∈ cleanLines lines := by
        rw [← List.mem_reverse, hR]
        simp
      have hnotin : y ∉ P ++ S' := by
        intro hmem
        have h2 : ((P ++ S') ++ y :: (x :: T)).Nodup := by
          rw [← hR]; exact hnd
        have h3 := List.nodup_middle.mp h2
        exact (List.nodup_cons.mp h3).1 (List.mem_append_left _ hmem)
      exact get_all_decomp hR hnotin (cleanLines_mem_strip hy_mem)
        (cleanLines_mem_ne hy_mem)

/-- Claim C4 witness: ledger `["30","20","10"]`, no prior checkpoint,
archival succeeding on `"10"` and failing on `"20"`: one item archived,
checkpoint `"10"`, failing id `"20"`, and the re-run pending starts with
`"20"`. -/
theorem C4_fail_stop_witness :
    processorMain none ["30","20","10"] (fun s => s == ("10"))
        = (some ("10"), 1, some ("20"))
    ∧ get_all_tweets_to_archive (some ("10")) ["30","20","10"] = ["20","30"] :=
  C4_fail_stop ["30","20","10"] ["10"] ["30"] ("20") none (fun s => s == ("10"))
    (by decide) (by decide) (by decide) (by decide)

/-- Claim C7: dangling checkpoint recovery.  If the checkpoint content `c`
is non-empty (and whitespace-stripped) but not a member of the ledger,
pending falls back to the entire ledger (oldest-first), the
`ValueError` warning is surfaced, and the checkpoint is not silently
reset: a run in which every archival fails leaves the checkpoint file
still holding `c`.  Concretely, checkpoint `"99"` against ledger
`["30","20","10"]` leaves all three items pending with a warning. -/
theorem C7_dangling_checkpoint (lines : List String) (c : String)
    (hstrip : pyStrip c = c) (hne : c ≠ "")
    (hd : c ∉ (cleanLines lines).reverse) :
    get_all_tweets_to_archive (some c) lines = (cleanLines lines).reverse
    ∧ ((cleanLines lines).reverse ≠ [] → dangling_warning (some c) lines = true)
    ∧ (processorMain (some c) lines (fun _ => false)).1 = some c
    ∧ (get_all_tweets_to_archive (some ("99")) ["30","20","10"] = ["10","20","30"]
        ∧ dangling_warning (some ("99")) ["30","20","10"] = true) := by
  have hpend : get_all_tweets_to_archive (some c) lines = (cleanLines lines).reverse := by
    unfold get_all_tweets_to_archive get_last_archived_id
    by_cases h0 : (cleanLines lines).reverse = []
    · rw [if_pos h0]
      exact h0.symm
    · rw [if_neg h0]
      simp only [Option.map_some']
      rw [hstrip]
      rw [if_neg hne, pyIndex_eq_none hd]
  refine ⟨hpend, ?_, ?_, by decide⟩
  · intro h0
    unfold dangling_warning get_last_archived_id
    simp only [Option.map_some']
    rw [hstrip]
    rw [if_neg h0, if_neg hne, pyIndex_eq_none hd]
    rfl
  · unfold processorMain
    rcases runLoop_state (fun _ => false)
        (get_all_tweets_to_archive (some c) lines) (some c) with h | ⟨y, _, hfy, _⟩
    · exact h
    · simp at hfy

/-- Claim C7 witness: the dangling-checkpoint theorem evaluated at
checkpoint `"99"` against ledger `["30","20","10"]`. -/
theorem C7_dangling_checkpoint_witness :
    get_all_tweets_to_archive (some ("99")) ["30","20","10"]
        = (cleanLines ["30","20","10"]).reverse
    ∧ ((cleanLines ["30","20","10"]).reverse ≠ [] →
        dangling_warning (some ("99")) ["30","20","10"] = true)
    ∧ (processorMain (some ("99")) ["30","20","10"] (fun _ => false)).1 = some ("99")
    ∧ (get_all_tweets_to_archive (some ("99")) ["30","20","10"] = ["10","20","30"]
        ∧ dangling_warning (some ("99")) ["30","20","10"] = true) :=
  C7_dangling_checkpoint ["30","20","10"] ("99") (by decide) (by decide) (by decide)

/-- Claim C9: checkpoint monotonicity.  For a fixed ledger whose
oldest-first form decomposes as `X ++ c0 :: Y` around the current
checkpoint `c0` (so `X` holds the strictly older entries and `Y` the
strictly newer ones), any Processor run leaves the checkpoint either
unchanged at `c0` or moved to some member of `Y` — an identifier strictly
newer than `c0`, never older — and it moves only when the archival action
confirmed success on that identifier.  Iterating this over any sequence of
runs, the checkpoint's distance from the newest end never grows without an
explicit reset. -/
theorem C9_checkpoint_monotonic (lines X Y : List String) (c0 : String)
    (hR : (cleanLines lines).reverse = X ++ c0 :: Y) (hc0 : c0 ∉ X)
    (f : String → Bool) :
    (processorMain (some c0) lines f).1 = some c0
    ∨ ∃ y, y ∈ Y ∧ f y = true ∧ (processorMain (some c0) lines f).1 = some y := by
  have hmem : c0 ∈ cleanLines lines := by
    rw [← List.mem_reverse, hR]
    simp
  have hpend : get_all_tweets_to_archive (some c0) lines = Y :=
    get_all_decomp hR hc0 (cleanLines_mem_strip hmem) (cleanLines_mem_ne hmem)
  unfold processorMain
  rw [hpend]
  exact runLoop_state f Y (some c0)

/-- Claim C9 witness: ledger `["30","20","10"]`, checkpoint `"20"`,
all-succeeding archival: the run ends at `"20"` or on a strictly newer
entry. -/
theorem C9_checkpoint_monotonic_witness :
    (processorMain (some ("20")) ["30","20","10"] (fun _ => true)).1 = some ("20")
    ∨ ∃ y, y ∈ ["30"] ∧ (fun _ => true) y = true
        ∧ (processorMain (some ("20")) ["30","20","10"] (fun _ => true)).1 = some y :=
  C9_checkpoint_monotonic ["30","20","10"] ["10"] ["30"] ("20")
    (by decide) (by decide) (fun _ => true)

/-- Claim C10: outcome of the archival action.  `archive_tweet` returns a
success outcome exactly when no pre-step exception occurred and at least
one of its two sub-steps succeeded — the screenshot step returning `True`
(an exception inside it is caught by its inner try/except and counted as
a failed screenshot) or the media download succeeding (gallery-dl exit
code 0; `download_tweet_media` catches its own exceptions and returns
`False`).  And `archive_tweet` never raises: a pre-step exception is
converted by the outer `except Exception` into a `(False, message)`
outcome, as the second conjunct shows, the embedding being a total
function. -/
theorem C10_archive_outcome :
    (∀ (pre : Option String) (shot : StepResult) (mediaRet : Option Nat),
        (archive_tweet pre shot mediaRet).1 = true ↔
          (pre = none ∧ (shot = StepResult.ok true
            ∨ download_tweet_media mediaRet = true)))
    ∧ (∀ (e : String) (shot : StepResult) (mediaRet : Option Nat),
        archive_tweet (some e) shot mediaRet
          = (false, "Error archiving tweet: " ++ e)) := by
  constructor
  · intro pre shot mediaRet
    cases pre with
    | some e => simp [archive_tweet]
    | none =>
        cases shot with
        | ok b =>
            cases b <;> cases hm : download_tweet_media mediaRet <;>
              simp [archive_tweet, take_screenshot_guarded, hm]
        | raises m =>
            cases hm : download_tweet_media mediaRet <;>
              simp [archive_tweet, take_screenshot_guarded, hm]
  · intro e shot mediaRet
    rfl

end TLA
